import Mathlib

/-!
# PhishShield quiz session: a verification development

Shallow embedding of the quiz session logic of `src/App.js` (the React
component `App`): the eight `useState` cells become the fields of `State`,
each event handler becomes a function `State → State`, and the render
function becomes `render : State → Except String Screen`.

Every handler runs in its own event and the component re-renders between
two events, so the closure variables a handler reads (`index`,
`currentQuestion`, `shuffledQuestions`) are the fields of the state it is
applied to, and the functional updates `setX(prev => ...)` act on that same
state.

`Array.prototype.sort` belongs to the JavaScript engine, not to the
repository. It is embedded as a straight insertion sort (`insertionSort`
below, the algorithm V8 ran on short arrays before it moved to TimSort),
which calls the comparator once per comparison. Other engines make other
comparisons and return other orders on the same draws, so what is proved
about the pool does not depend on its order, and the orders and counts
computed below are those of this embedding. The comparator of
`shuffleArray` ignores both arguments, so only the sequence of
`Math.random()` draws matters: it is the parameter `rnd : Nat → ℚ`, the
`k`-th draw being `rnd k`.

Numbers are exact rationals: the `score / length * 100` of the result
screen and the progress fraction are computed in `ℚ`, where the source
computes in binary64 doubles. The two give the same percentage at the inputs
evaluated below (4 of 2, a pool of 2 or 3); they can differ by one where
the exact value is a half and the double falls just under it (23 of 40 is
57.5 exactly and 57.49999999999999 in doubles).
-/

namespace PhishShield

/-! ## Data model -/

/-- One entry of `questions.json`. -/
structure Question where
  level : Nat
  question : String
  options : List String
  answer : String
  explanation : String
deriving DecidableEq, Repr

/-- The `useState` cells of `App` (lines 18-25). `selectedLevel = none` is
the JavaScript `null`. -/
structure State where
  index : Nat
  showExplanation : Bool
  score : Nat
  selectedLevel : Option Nat
  quizComplete : Bool
  shuffledQuestions : List Question
  isAnswerCorrect : Option Bool
  isDarkMode : Bool
deriving DecidableEq, Repr

/-- The initial values of the `useState` cells. -/
def State.init : State :=
  { index := 0, showExplanation := false, score := 0, selectedLevel := none,
    quizComplete := false, shuffledQuestions := [], isAnswerCorrect := none,
    isDarkMode := false }

/-! ## shuffleArray -/

/-- The comparator `() => Math.random() - 0.5`, at the draw `r`. -/
def comparator (r : ℚ) : ℚ := r - 1 / 2

/-- Inner loop of the insertion sort: `element` travels left through the
sorted part, given nearest neighbour first (`tmp :: rest`), as long as
`comparefn(tmp, element) > 0`. `k` counts the comparator calls made so far.
Returns the new sorted part (again nearest-first, i.e. reversed) and the
updated call count. -/
def insertElement {α : Type} (rnd : Nat → ℚ) (k : Nat) (element : α) :
    List α → List α × Nat
  | [] => ([element], k)
  | tmp :: rest =>
    if comparator (rnd k) > 0 then
      let r := insertElement rnd (k + 1) element rest
      (tmp :: r.1, r.2)
    else
      (element :: tmp :: rest, k + 1)

/-- Outer loop of the insertion sort: `done` is the sorted part reversed,
`todo` the elements still to insert. -/
def insertionLoop {α : Type} (rnd : Nat → ℚ) : Nat → List α → List α → List α
  | _, done, [] => done.reverse
  | k, done, element :: todo =>
    let r := insertElement rnd k element done
    insertionLoop rnd r.2 r.1 todo

/-- The engine's `sort` under the comparator of `shuffleArray`. -/
def insertionSort {α : Type} (rnd : Nat → ℚ) (array : List α) : List α :=
  insertionLoop rnd 0 [] array

/-- The function `shuffleArray = (array) => [...array].sort(() => Math.random()
- 0.5)` (line 15). -/
def shuffleArray {α : Type} (rnd : Nat → ℚ) (array : List α) : List α :=
  insertionSort rnd array

/-! ## Event handlers -/

/-- The lookup `currentQuestion = shuffledQuestions[index]` (line 28); `none`
is `undefined`. -/
def currentQuestion (s : State) : Option Question :=
  s.shuffledQuestions[s.index]?

/-- The handler `handleAnswer` (lines 40-46). -/
def handleAnswer (s : State) (option : String) : State :=
  match currentQuestion s with
  | none => s
  | some q =>
    let correct : Bool := option == q.answer
    { s with
      isAnswerCorrect := some correct
      score := if correct then s.score + 1 else s.score
      showExplanation := true }

/-- The handler `nextQuestion` (lines 48-56). -/
def nextQuestion (s : State) : State :=
  if s.index + 1 < s.shuffledQuestions.length then
    { s with showExplanation := false, isAnswerCorrect := none, index := s.index + 1 }
  else
    { s with showExplanation := false, isAnswerCorrect := none, quizComplete := true }

/-- The handler `previousQuestion` (lines 58-64). -/
def previousQuestion (s : State) : State :=
  if s.index > 0 then
    { s with index := s.index - 1, showExplanation := false, isAnswerCorrect := none }
  else s

/-- The handler `goHome` (lines 66-74). -/
def goHome (s : State) : State :=
  { s with selectedLevel := none, shuffledQuestions := [], score := 0, index := 0,
           showExplanation := false, isAnswerCorrect := none, quizComplete := false }

/-- The handler `restartQuiz` (lines 76-84). -/
def restartQuiz (s : State) : State :=
  { s with index := 0, score := 0, showExplanation := false, selectedLevel := none,
           quizComplete := false, shuffledQuestions := [], isAnswerCorrect := none }

/-- The handler `startLevel` (lines 86-96); `questions` is the imported dataset. -/
def startLevel (rnd : Nat → ℚ) (questions : List Question) (s : State) (level : Nat) :
    State :=
  let filtered := questions.filter (fun q => q.level == level)
  let shuffled := shuffleArray rnd filtered
  { s with selectedLevel := some level, shuffledQuestions := shuffled, index := 0,
           score := 0, quizComplete := false, showExplanation := false,
           isAnswerCorrect := none }

/-- The handler `toggleTheme` (line 98). -/
def toggleTheme (s : State) : State := { s with isDarkMode := !s.isDarkMode }

/-! ## Render -/

/-- The method `Number.prototype.toFixed(0)`: the nearest integer, the larger one on a
tie, the sign treated apart. -/
def toFixed0 (x : ℚ) : ℤ :=
  if x < 0 then -⌊-x + 1 / 2⌋ else ⌊x + 1 / 2⌋

/-- The `percent` of the result screen (line 138). With an empty pool the
JavaScript value is `NaN` or `Infinity`, rendered here as `none`. -/
def percent (s : State) : Option ℤ :=
  if s.shuffledQuestions.length = 0 then none
  else some (toFixed0 ((s.score : ℚ) / (s.shuffledQuestions.length : ℚ) * 100))

/-- The `progress` of the question screen (line 158). -/
def progress (s : State) : ℚ :=
  ((s.index + (if s.showExplanation then 1 else 0) : Nat) : ℚ) /
    (s.shuffledQuestions.length : ℚ)

/-- What `App` returns: one constructor per `return` of the render. -/
inductive Screen where
  | home
  | complete (score length : Nat) (percent : Option ℤ)
  | question (level shown length : Nat) (progress : ℚ) (question : String)
      (options : List String)
  | explanation (level shown length : Nat) (progress : ℚ) (isAnswerCorrect : Bool)
      (explanation : String) (previousDisabled : Bool)
deriving DecidableEq, Repr

deriving instance DecidableEq for Except

/-- The test `!selectedLevel` (line 100): `null` and `0` are falsy. -/
def noLevel (s : State) : Bool :=
  match s.selectedLevel with
  | none => true
  | some l => l == 0

/-- The render of `App` (lines 100-222). Reading a property of the
`undefined` `currentQuestion` throws a `TypeError`. -/
def render (s : State) : Except String Screen :=
  if noLevel s then .ok .home
  else if s.quizComplete then
    .ok (.complete s.score s.shuffledQuestions.length (percent s))
  else
    match currentQuestion s with
    | none => .error "TypeError: undefined is not an object"
    | some q =>
      if !s.showExplanation then
        .ok (.question q.level (s.index + 1) s.shuffledQuestions.length (progress s)
              q.question q.options)
      else
        .ok (.explanation q.level (s.index + 1) s.shuffledQuestions.length (progress s)
              (s.isAnswerCorrect == some true) q.explanation (s.index == 0))

/-! ## Runs -/

/-- The three handlers of a running session. -/
inductive Action where
  | handleAnswer (option : String)
  | nextQuestion
  | previousQuestion
deriving DecidableEq, Repr

/-- One handler call. -/
def step (s : State) : Action → State
  | .handleAnswer option => handleAnswer s option
  | .nextQuestion => nextQuestion s
  | .previousQuestion => previousQuestion s

/-- A sequence of handler calls. -/
def run (s : State) (actions : List Action) : State :=
  actions.foldl step s

/-- A state as `startLevel` leaves it: index 0, score 0, no explanation
shown, quiz not complete. -/
def Fresh (s : State) : Prop :=
  s.index = 0 ∧ s.score = 0 ∧ s.showExplanation = false ∧ s.quizComplete = false

instance (s : State) : Decidable (Fresh s) := by
  unfold Fresh; infer_instance

/-- One question played: `handleAnswer(option)` then `nextQuestion()`. -/
def answerThenNext (s : State) (option : String) : State :=
  nextQuestion (handleAnswer s option)

/-- The run `handleAnswer, nextQuestion, handleAnswer, nextQuestion, ...`. -/
def play (s : State) (options : List String) : State :=
  options.foldl answerThenNext s

/-- Number of positions at which the chosen option is the answer of the
question of the pool at that position. -/
def correctCount : List String → List Question → Nat
  | o :: os, q :: qs => (if o = q.answer then 1 else 0) + correctCount os qs
  | _, _ => 0

/-- The states along the run `handleAnswer, nextQuestion, ...`: the start
state, then the state after each call, in order. -/
def playTrace (s : State) : List String → List State
  | [] => [s]
  | o :: os => s :: handleAnswer s o :: playTrace (nextQuestion (handleAnswer s o)) os

/-- A run that only moves forward and answers each question once:
`handleAnswer` is called only while `showExplanation` and `quizComplete` are
both false (the states whose render shows the option buttons, lines 137 and
178), `previousQuestion` is not called. -/
def forwardRun : State → List Action → Bool
  | _, [] => true
  | s, .handleAnswer o :: rest =>
    !s.showExplanation && !s.quizComplete && forwardRun (handleAnswer s o) rest
  | s, .nextQuestion :: rest => forwardRun (nextQuestion s) rest
  | _, .previousQuestion :: _ => false

/-- Whether the render of `s` shows an enabled control that makes the call:
the option buttons of the question view (lines 178-189), and the
`Previous` (disabled at index 0) and `Next` buttons of the explanation view
(lines 199-216). -/
def offered (s : State) : Action → Bool
  | .handleAnswer o =>
    !noLevel s && !s.quizComplete && !s.showExplanation &&
      (match currentQuestion s with
       | some q => q.options.contains o
       | none => false)
  | .nextQuestion =>
    !noLevel s && !s.quizComplete && s.showExplanation && (currentQuestion s).isSome
  | .previousQuestion =>
    !noLevel s && !s.quizComplete && s.showExplanation && (currentQuestion s).isSome &&
      s.index != 0

/-- A run in which every call is offered by the render of the state it is
made in. -/
def offeredRun : State → List Action → Bool
  | _, [] => true
  | s, a :: rest => offered s a && offeredRun (step s a) rest

/-! ## Fair comparator outcomes -/

/-- A draw of `Math.random()` for one fair flip: heads makes the comparator
positive, tails negative. -/
def coinDraw (heads : Bool) : ℚ := if heads then 3 / 4 else 1 / 4

/-- The random source that follows a finite sequence of flips (tails once
the sequence is used up). -/
def drawsOf (flips : List Bool) : Nat → ℚ :=
  fun k => coinDraw (flips.getD k false)

/-- All `2 ^ m` sequences of `m` flips; under a fair coin each has
probability `1 / 2 ^ m`. -/
def allFlips : Nat → List (List Bool)
  | 0 => [[]]
  | m + 1 => (allFlips m).flatMap (fun f => [false :: f, true :: f])

/-- How many of the `2 ^ m` flip sequences make `shuffleArray array` return
`target`: the probability of `target` is `outcomes m array target / 2 ^ m`
as soon as `m` bounds the number of comparator calls. -/
def outcomes (m : Nat) (array target : List Question) : Nat :=
  ((allFlips m).filter (fun f => decide (shuffleArray (drawsOf f) array = target))).length

/-! ## Sample data -/

/-- A level-1 question whose answer is its first option. -/
def q1 : Question :=
  { level := 1, question := "Is this sender address genuine?",
    options := ["A", "B", "C"], answer := "A", explanation := "Check the domain." }

/-- A level-1 question whose answer is its second option. -/
def q2 : Question :=
  { level := 1, question := "Should you open the attachment?",
    options := ["A", "B", "C"], answer := "B", explanation := "Verify with the sender." }

/-- A level-1 question whose answer is its third option. -/
def q3 : Question :=
  { level := 1, question := "Where does this link lead?",
    options := ["A", "B", "C"], answer := "C", explanation := "Hover before clicking." }

/-- The state `startLevel(1)` leaves when the shuffled pool is `pool`. -/
def sessionOver (pool : List Question) : State :=
  { State.init with selectedLevel := some 1, shuffledQuestions := pool }

/-- Both questions of a two-question pool answered correctly, then
`previousQuestion` and both answered correctly again, up to completion. Each
call is one the render offers in the state it is made in. -/
def answeredTwice : List Action :=
  [.handleAnswer "A", .nextQuestion, .handleAnswer "B", .previousQuestion,
   .handleAnswer "A", .nextQuestion, .handleAnswer "B", .nextQuestion]

/-- A random source whose comparator is always negative: the sort moves
nothing. -/
def tails : Nat → ℚ := fun _ => 1 / 4

/-! ## shuffleArray returns a permutation -/

theorem insertElement_perm {α : Type} (rnd : Nat → ℚ) (element : α) (done : List α) :
    ∀ k, (insertElement rnd k element done).1.Perm (element :: done) := by
  induction done with
  | nil => intro k; simp [insertElement]
  | cons tmp rest ih =>
    intro k
    unfold insertElement
    split
    · exact ((ih (k + 1)).cons tmp).trans (List.Perm.swap element tmp rest)
    · exact List.Perm.refl _

theorem insertionLoop_perm {α : Type} (rnd : Nat → ℚ) (todo : List α) :
    ∀ k done, (insertionLoop rnd k done todo).Perm (done ++ todo) := by
  induction todo with
  | nil => intro k done; simp [insertionLoop]
  | cons element todo ih =>
    intro k done
    unfold insertionLoop
    refine (ih _ _).trans ?_
    refine ((insertElement_perm rnd element done k).append_right todo).trans ?_
    have hmid : (done ++ element :: todo).Perm (element :: (done ++ todo)) :=
      List.perm_middle
    simpa using hmid.symm

theorem shuffleArray_perm {α : Type} (rnd : Nat → ℚ) (array : List α) :
    (shuffleArray rnd array).Perm array := by
  simpa [shuffleArray, insertionSort] using insertionLoop_perm rnd array 0 []

/-- Claim C2: whatever the random draws, the pool `startLevel(L)` stores is
a permutation of the dataset entries of level `L`: every question occurs in
the pool as often as in the dataset when its level is `L`, and not at all
otherwise. -/
theorem startLevel_pool_perm (rnd : Nat → ℚ) (questions : List Question) (s : State)
    (level : Nat) :
    (startLevel rnd questions s level).shuffledQuestions.Perm
        (questions.filter (fun q => q.level == level)) ∧
      ∀ q : Question, (startLevel rnd questions s level).shuffledQuestions.count q =
        if q.level = level then questions.count q else 0 := by
  have hp : (startLevel rnd questions s level).shuffledQuestions.Perm
      (questions.filter (fun q => q.level == level)) := by
    simpa [startLevel] using shuffleArray_perm rnd _
  refine ⟨hp, fun q => ?_⟩
  rw [hp.count_eq]
  by_cases h : q.level = level
  · rw [if_pos h, List.count_filter (by simpa using h)]
  · rw [if_neg h]
    apply List.count_eq_zero_of_not_mem
    intro hm
    exact h (by simpa using (List.mem_filter.mp hm).2)

/-! ## previousQuestion keeps the score -/

/-- Claim C6: applying `previousQuestion` any number of times leaves the
score as it was. -/
theorem previousQuestion_iterate_score (s : State) (k : Nat) :
    (previousQuestion^[k] s).score = s.score := by
  induction k generalizing s with
  | zero => rfl
  | succ k ih =>
    rw [Function.iterate_succ_apply, ih]
    unfold previousQuestion
    split <;> rfl

/-! ## Frame lemmas of the handlers -/

theorem handleAnswer_index (s : State) (o : String) : (handleAnswer s o).index = s.index := by
  unfold handleAnswer; split <;> rfl

theorem handleAnswer_pool (s : State) (o : String) :
    (handleAnswer s o).shuffledQuestions = s.shuffledQuestions := by
  unfold handleAnswer; split <;> rfl

theorem handleAnswer_quizComplete (s : State) (o : String) :
    (handleAnswer s o).quizComplete = s.quizComplete := by
  unfold handleAnswer; split <;> rfl

theorem handleAnswer_selectedLevel (s : State) (o : String) :
    (handleAnswer s o).selectedLevel = s.selectedLevel := by
  unfold handleAnswer; split <;> rfl

theorem handleAnswer_score (s : State) (o : String) :
    (handleAnswer s o).score =
      s.score + (match currentQuestion s with
                 | some q => if o = q.answer then 1 else 0
                 | none => 0) := by
  unfold handleAnswer
  cases h : currentQuestion s with
  | none => simp
  | some q => by_cases ho : o = q.answer <;> simp [ho]

theorem handleAnswer_showExplanation (s : State) (o : String) :
    (handleAnswer s o).showExplanation =
      (match currentQuestion s with
       | some _ => true
       | none => s.showExplanation) := by
  unfold handleAnswer
  cases h : currentQuestion s <;> simp

theorem handleAnswer_isAnswerCorrect (s : State) (o : String) :
    (handleAnswer s o).isAnswerCorrect =
      (match currentQuestion s with
       | some q => some (decide (o = q.answer))
       | none => s.isAnswerCorrect) := by
  unfold handleAnswer
  cases h : currentQuestion s with
  | none => simp
  | some q => by_cases ho : o = q.answer <;> simp [ho]

theorem nextQuestion_pool (s : State) :
    (nextQuestion s).shuffledQuestions = s.shuffledQuestions := by
  unfold nextQuestion; split <;> rfl

theorem nextQuestion_score (s : State) : (nextQuestion s).score = s.score := by
  unfold nextQuestion; split <;> rfl

theorem nextQuestion_selectedLevel (s : State) :
    (nextQuestion s).selectedLevel = s.selectedLevel := by
  unfold nextQuestion; split <;> rfl

theorem nextQuestion_showExplanation (s : State) :
    (nextQuestion s).showExplanation = false := by
  unfold nextQuestion; split <;> rfl

theorem previousQuestion_pool (s : State) :
    (previousQuestion s).shuffledQuestions = s.shuffledQuestions := by
  unfold previousQuestion; split <;> rfl

theorem previousQuestion_selectedLevel (s : State) :
    (previousQuestion s).selectedLevel = s.selectedLevel := by
  unfold previousQuestion; split <;> rfl

theorem step_pool (s : State) (a : Action) :
    (step s a).shuffledQuestions = s.shuffledQuestions := by
  cases a
  · exact handleAnswer_pool s _
  · exact nextQuestion_pool s
  · exact previousQuestion_pool s

theorem step_selectedLevel (s : State) (a : Action) :
    (step s a).selectedLevel = s.selectedLevel := by
  cases a
  · exact handleAnswer_selectedLevel s _
  · exact nextQuestion_selectedLevel s
  · exact previousQuestion_selectedLevel s

theorem run_pool (actions : List Action) :
    ∀ s : State, (run s actions).shuffledQuestions = s.shuffledQuestions := by
  induction actions with
  | nil => intro s; rfl
  | cons a actions ih => intro s; simp only [run, List.foldl_cons] at ih ⊢; rw [ih, step_pool]

/-! ## The index stays inside the pool -/

theorem step_index_lt (s : State) (a : Action)
    (h : s.index < s.shuffledQuestions.length) :
    (step s a).index < (step s a).shuffledQuestions.length := by
  rw [step_pool]
  cases a with
  | handleAnswer o => simpa [step, handleAnswer_index] using h
  | nextQuestion =>
    simp only [step, nextQuestion]
    split
    · assumption
    · exact h
  | previousQuestion =>
    simp only [step, previousQuestion]
    split
    · simp only; omega
    · exact h

theorem run_index_lt (actions : List Action) :
    ∀ s : State, s.index < s.shuffledQuestions.length →
      (run s actions).index < (run s actions).shuffledQuestions.length := by
  induction actions with
  | nil => intro s h; exact h
  | cons a actions ih =>
    intro s h
    simp only [run, List.foldl_cons] at ih ⊢
    exact ih _ (step_index_lt s a h)

theorem run_selectedLevel (actions : List Action) :
    ∀ s : State, (run s actions).selectedLevel = s.selectedLevel := by
  induction actions with
  | nil => intro s; rfl
  | cons a actions ih =>
    intro s; simp only [run, List.foldl_cons] at ih ⊢; rw [ih, step_selectedLevel]

theorem currentQuestion_of_lt (s : State) (h : s.index < s.shuffledQuestions.length) :
    currentQuestion s = some (s.shuffledQuestions.get ⟨s.index, h⟩) := by
  simp [currentQuestion, List.getElem?_eq_getElem h]

theorem render_ok_of_index_lt (s : State) (h : s.index < s.shuffledQuestions.length) :
    ∃ screen, render s = .ok screen := by
  unfold render
  split
  · exact ⟨_, rfl⟩
  · split
    · exact ⟨_, rfl⟩
    · rw [currentQuestion_of_lt s h]
      simp only
      split <;> exact ⟨_, rfl⟩

/-- Claim C10: when the dataset has a question of the chosen level, every
state reached from `startLevel(level)` by `handleAnswer`, `nextQuestion` and
`previousQuestion` calls has `0 ≤ index < shuffledQuestions.length`, so
`currentQuestion` is defined and the render reads no property of
`undefined`. -/
theorem index_in_bounds (rnd : Nat → ℚ) (questions : List Question) (s : State)
    (level : Nat) (actions : List Action)
    (h : ∃ q ∈ questions, q.level = level) :
    0 ≤ (run (startLevel rnd questions s level) actions).index ∧
    (run (startLevel rnd questions s level) actions).index <
      (run (startLevel rnd questions s level) actions).shuffledQuestions.length ∧
    (∃ q, currentQuestion (run (startLevel rnd questions s level) actions) = some q) ∧
    ∃ screen, render (run (startLevel rnd questions s level) actions) = .ok screen := by
  have h0 : (startLevel rnd questions s level).index <
      (startLevel rnd questions s level).shuffledQuestions.length := by
    obtain ⟨q, hq, hl⟩ := h
    have hp : (startLevel rnd questions s level).shuffledQuestions.Perm
        (questions.filter (fun q => q.level == level)) := shuffleArray_perm rnd _
    rw [hp.length_eq]
    have hm : q ∈ questions.filter (fun q => q.level == level) :=
      List.mem_filter.mpr ⟨hq, by simpa using hl⟩
    exact List.length_pos_of_mem hm
  have hlt := run_index_lt actions _ h0
  exact ⟨Nat.zero_le _, hlt, ⟨_, currentQuestion_of_lt _ hlt⟩, render_ok_of_index_lt _ hlt⟩

theorem index_in_bounds_witness :
    (∃ q ∈ [q1, q2, q3], q.level = 1) ∧
    (run (startLevel tails [q1, q2, q3] State.init 1)
      [.handleAnswer "A", .nextQuestion, .previousQuestion, .previousQuestion, .nextQuestion,
        .nextQuestion, .nextQuestion, .nextQuestion]).index < 3 := by
  have h := index_in_bounds tails [q1, q2, q3] State.init 1
    [.handleAnswer "A", .nextQuestion, .previousQuestion, .previousQuestion, .nextQuestion,
      .nextQuestion, .nextQuestion, .nextQuestion] ⟨q1, by decide, rfl⟩
  exact ⟨⟨q1, by decide, rfl⟩, Nat.lt_of_lt_of_eq h.2.1 (by decide!)⟩

/-! ## handleAnswer while the explanation is shown -/

/-- Claim C4, counterexample: the handler itself has no guard on
showExplanation. Applied to the state that follows the correct answer to
the only question of a pool (explanation shown, score 1), `handleAnswer`
with the same option is not a no-op: the score becomes 2. -/
theorem handleAnswer_twice_counts_twice :
    (handleAnswer (sessionOver [q1]) "A").showExplanation = true ∧
    (handleAnswer (sessionOver [q1]) "A").score = 1 ∧
    (handleAnswer (handleAnswer (sessionOver [q1]) "A") "A").score = 2 ∧
    handleAnswer (handleAnswer (sessionOver [q1]) "A") "A" ≠
      handleAnswer (sessionOver [q1]) "A" := by
  decide

theorem offered_handleAnswer_iff (s : State) (o : String) :
    offered s (.handleAnswer o) = true ↔
      noLevel s = false ∧ s.quizComplete = false ∧ s.showExplanation = false ∧
        ∃ q, currentQuestion s = some q ∧ o ∈ q.options := by
  unfold offered
  cases hq : currentQuestion s with
  | none => simp
  | some q => simp [and_assoc]

/-- Claim C4, amended: the guard against a second submission is in the
render, not in the handler. In every state whose explanation is shown, for
every option, the render offers no control that calls `handleAnswer`, so no
run of offered calls starts with it; and every call the render does offer
there is `nextQuestion` or `previousQuestion`, which leaves the score
unchanged and clears showExplanation. -/
theorem handleAnswer_not_offered_while_explained (s : State) (o : String)
    (h : s.showExplanation = true) :
    offered s (.handleAnswer o) = false ∧
    (∀ rest, offeredRun s (.handleAnswer o :: rest) = false) ∧
    (∀ a, offered s a = true →
      (a = .nextQuestion ∨ a = .previousQuestion) ∧
      (step s a).score = s.score ∧ (step s a).showExplanation = false) := by
  have hno : ∀ o2, offered s (.handleAnswer o2) = false := by
    intro o2
    cases hoff : offered s (.handleAnswer o2) with
    | false => rfl
    | true =>
      have := ((offered_handleAnswer_iff s o2).mp hoff).2.2.1
      rw [h] at this
      exact absurd this (by decide)
  refine ⟨hno o, ?_, ?_⟩
  · intro rest
    simp [offeredRun, hno o]
  · intro a ha
    cases a with
    | handleAnswer o2 => rw [hno o2] at ha; exact absurd ha (by decide)
    | nextQuestion =>
      exact ⟨Or.inl rfl, nextQuestion_score s, nextQuestion_showExplanation s⟩
    | previousQuestion =>
      have hidx : s.index ≠ 0 := by
        simp only [offered, Bool.and_eq_true, bne_iff_ne] at ha
        exact ha.2
      have hpos : s.index > 0 := Nat.pos_of_ne_zero hidx
      refine ⟨Or.inr rfl, ?_, ?_⟩ <;> simp [step, previousQuestion, hpos]

theorem handleAnswer_not_offered_while_explained_witness :
    (handleAnswer (sessionOver [q1]) "A").showExplanation = true ∧
    offered (sessionOver [q1]) (.handleAnswer "A") = true ∧
    offered (handleAnswer (sessionOver [q1]) "A") (.handleAnswer "A") = false ∧
    offered (handleAnswer (sessionOver [q1]) "A") .nextQuestion = true ∧
    (step (handleAnswer (sessionOver [q1]) "A") .nextQuestion).score = 1 := by
  have h := handleAnswer_not_offered_while_explained
    (handleAnswer (sessionOver [q1]) "A") "A" (by decide)
  exact ⟨by decide, by decide, h.1, by decide,
    (h.2.2 .nextQuestion (by decide)).2.1.trans (by decide)⟩

/-! ## Playing a pool through -/

theorem answerThenNext_pool (s : State) (o : String) :
    (answerThenNext s o).shuffledQuestions = s.shuffledQuestions := by
  simp [answerThenNext, nextQuestion_pool, handleAnswer_pool]

theorem answerThenNext_score (s : State) (o : String)
    (h : s.index < s.shuffledQuestions.length) :
    (answerThenNext s o).score =
      s.score + (if o = (s.shuffledQuestions.get ⟨s.index, h⟩).answer then 1 else 0) := by
  simp [answerThenNext, nextQuestion_score, handleAnswer_score, currentQuestion_of_lt s h]

theorem answerThenNext_more (s : State) (o : String)
    (h : s.index + 1 < s.shuffledQuestions.length) :
    (answerThenNext s o).index = s.index + 1 ∧
    (answerThenNext s o).quizComplete = s.quizComplete := by
  have h1 : (handleAnswer s o).index + 1 < (handleAnswer s o).shuffledQuestions.length := by
    rw [handleAnswer_index, handleAnswer_pool]; exact h
  simp only [answerThenNext, nextQuestion, if_pos h1]
  exact ⟨by rw [handleAnswer_index], handleAnswer_quizComplete s o⟩

theorem answerThenNext_last (s : State) (o : String)
    (h : ¬ s.index + 1 < s.shuffledQuestions.length) :
    (answerThenNext s o).index = s.index ∧ (answerThenNext s o).quizComplete = true := by
  have h1 : ¬ (handleAnswer s o).index + 1 < (handleAnswer s o).shuffledQuestions.length := by
    rw [handleAnswer_index, handleAnswer_pool]; exact h
  simp only [answerThenNext, nextQuestion, if_neg h1]
  exact ⟨handleAnswer_index s o, trivial⟩

theorem play_cons (s : State) (o : String) (os : List String) :
    play s (o :: os) = play (answerThenNext s o) os := rfl

theorem play_from (options : List String) :
    ∀ s : State, s.index + options.length = s.shuffledQuestions.length →
      s.quizComplete = false →
      (play s options).score =
          s.score + correctCount options (s.shuffledQuestions.drop s.index) ∧
        ∀ k, k ≤ options.length →
          ((play s (options.take k)).quizComplete = true ↔ (1 ≤ k ∧ k = options.length)) := by
  induction options with
  | nil =>
    intro s _ hc
    refine ⟨by simp [play, correctCount], ?_⟩
    intro k hk
    have : k = 0 := by simpa using hk
    subst this
    simp [play, hc]
  | cons o os ih =>
    intro s hlen hc
    have hlt : s.index < s.shuffledQuestions.length := by
      simp only [List.length_cons] at hlen; omega
    have hdrop : s.shuffledQuestions.drop s.index =
        s.shuffledQuestions.get ⟨s.index, hlt⟩ :: s.shuffledQuestions.drop (s.index + 1) := by
      simp
    have hscore := answerThenNext_score s o hlt
    have hpool := answerThenNext_pool s o
    by_cases hmore : s.index + 1 < s.shuffledQuestions.length
    · obtain ⟨hi, hq⟩ := answerThenNext_more s o hmore
      have hos : 1 ≤ os.length := by
        simp only [List.length_cons] at hlen; omega
      obtain ⟨ihs, ihk⟩ := ih (answerThenNext s o)
        (by rw [hi, hpool]; simp only [List.length_cons] at hlen; omega) (by rw [hq, hc])
      constructor
      · rw [play_cons, ihs, hscore, hpool, hi, hdrop]
        simp only [correctCount]
        omega
      · intro k hk
        cases k with
        | zero => simp [play, hc]
        | succ k =>
          simp only [List.take_succ_cons, play_cons, List.length_cons]
          rw [ihk k (by simpa using hk)]
          omega
    · obtain ⟨_, hq⟩ := answerThenNext_last s o hmore
      have hos : os = [] := by
        apply List.eq_nil_of_length_eq_zero
        simp only [List.length_cons] at hlen; omega
      subst hos
      constructor
      · rw [play_cons, hdrop]
        simp only [play, List.foldl_nil, correctCount]
        rw [hscore]
        cases s.shuffledQuestions.drop (s.index + 1) <;> simp [correctCount]
      · intro k hk
        have hk1 : k = 0 ∨ k = 1 := by
          simp only [List.length_cons, List.length_nil] at hk; omega
        rcases hk1 with rfl | rfl
        · simp [play, hc]
        · simp [play, hq]

theorem play_fresh (s : State) (options : List String)
    (hs : Fresh s) (hne : s.shuffledQuestions ≠ [])
    (hlen : options.length = s.shuffledQuestions.length) :
    (play s options).score = correctCount options s.shuffledQuestions ∧
    (∀ k, 1 ≤ k → k < options.length → (play s (options.take k)).quizComplete = false) ∧
    (play s options).quizComplete = true := by
  obtain ⟨hi, hsc, _, hc⟩ := hs
  have hpos : 1 ≤ options.length := by
    rw [hlen]; exact List.length_pos.mpr hne
  obtain ⟨h1, h2⟩ := play_from options s (by rw [hi, hlen]; simp) hc
  refine ⟨by simpa [hi, hsc] using h1, ?_, ?_⟩
  · intro k _ hk
    have := h2 k (Nat.le_of_lt hk)
    cases hq : (play s (options.take k)).quizComplete
    · rfl
    · have := (this.mp hq).2; omega
  · have := (h2 options.length (Nat.le_refl _)).mpr ⟨hpos, rfl⟩
    simpa using this

/-- Claim C1: from a freshly started level over a non-empty pool of `n`
questions, answering with `n` options (`handleAnswer` then `nextQuestion`
each time) ends with the score equal to the number of options that are the
answer of the question at their position, and `quizComplete` is false after
each of the first `n - 1` `nextQuestion` calls and true after the `n`-th. -/
theorem play_score_and_completion (s : State) (options : List String)
    (hs : Fresh s) (hne : s.shuffledQuestions ≠ [])
    (hlen : options.length = s.shuffledQuestions.length) :
    (play s options).score = correctCount options s.shuffledQuestions ∧
    (∀ k, 1 ≤ k → k < options.length → (play s (options.take k)).quizComplete = false) ∧
    (play s options).quizComplete = true :=
  play_fresh s options hs hne hlen

theorem play_score_and_completion_witness :
    Fresh (sessionOver [q1, q2, q3]) ∧
    (play (sessionOver [q1, q2, q3]) ["A", "B", "A"]).score = 2 ∧
    (play (sessionOver [q1, q2, q3]) ["A", "B", "A"]).quizComplete = true ∧
    (play (sessionOver [q1, q2, q3]) ["A"]).quizComplete = false ∧
    (play (sessionOver [q1, q2, q3]) ["A", "B"]).quizComplete = false := by
  have h := play_score_and_completion (sessionOver [q1, q2, q3]) ["A", "B", "A"]
    (by decide) (by decide) (by decide)
  exact ⟨by decide, h.1.trans (by decide), h.2.2, h.2.1 1 (by decide) (by decide),
    h.2.1 2 (by decide) (by decide)⟩

/-! ## The score against the index -/

/-- Claim C3, counterexample: `score ≤ index + (1 if showExplanation)` fails
in three reachable states: after the completing `nextQuestion` of a
one-question pool (score 1, index 0), after `previousQuestion` from the
second question (score 2, index 0), and after two `handleAnswer` calls on
the same question (score 2, index 0, explanation shown). -/
theorem score_bound_fails :
    (¬ (run (sessionOver [q1]) [.handleAnswer "A", .nextQuestion]).score ≤
        (run (sessionOver [q1]) [.handleAnswer "A", .nextQuestion]).index +
          (if (run (sessionOver [q1]) [.handleAnswer "A", .nextQuestion]).showExplanation
            then 1 else 0)) ∧
    (¬ (run (sessionOver [q1, q2])
          [.handleAnswer "A", .nextQuestion, .handleAnswer "B", .previousQuestion]).score ≤
        (run (sessionOver [q1, q2])
          [.handleAnswer "A", .nextQuestion, .handleAnswer "B", .previousQuestion]).index +
          (if (run (sessionOver [q1, q2])
            [.handleAnswer "A", .nextQuestion, .handleAnswer "B",
              .previousQuestion]).showExplanation then 1 else 0)) ∧
    (¬ (run (sessionOver [q1]) [.handleAnswer "A", .handleAnswer "A"]).score ≤
        (run (sessionOver [q1]) [.handleAnswer "A", .handleAnswer "A"]).index +
          (if (run (sessionOver [q1]) [.handleAnswer "A", .handleAnswer "A"]).showExplanation
            then 1 else 0)) := by
  decide

theorem forwardRun_bound (actions : List Action) :
    ∀ s : State, forwardRun s actions = true →
      s.score ≤ s.index + (if s.showExplanation || s.quizComplete then 1 else 0) →
      (run s actions).score ≤ (run s actions).index +
        (if (run s actions).showExplanation || (run s actions).quizComplete then 1 else 0) := by
  induction actions with
  | nil => intro s _ h; exact h
  | cons a rest ih =>
    intro s hf h
    cases a with
    | handleAnswer o =>
      simp only [forwardRun, Bool.and_eq_true, Bool.not_eq_true'] at hf
      obtain ⟨⟨hshow, hdone⟩, hrest⟩ := hf
      refine ih (handleAnswer s o) hrest ?_
      rw [handleAnswer_index, handleAnswer_score, handleAnswer_showExplanation,
        handleAnswer_quizComplete]
      simp only [hshow, hdone, Bool.or_self, Bool.false_eq_true, if_false, Nat.add_zero] at h
      cases hq : currentQuestion s with
      | none => simp [hshow, hdone]; exact h
      | some q =>
        simp only [Bool.true_or, if_true]
        split <;> omega
    | nextQuestion =>
      simp only [forwardRun] at hf
      refine ih (nextQuestion s) hf ?_
      have hle : s.score ≤ s.index + 1 := by
        split at h <;> omega
      unfold nextQuestion
      split
      · simp only; split <;> omega
      · simp only [Bool.or_true, if_true]; exact hle
    | previousQuestion => simp [forwardRun] at hf

/-- Claim C3, amended: in every state reached from a freshly started level
by `nextQuestion` calls and by `handleAnswer` calls made while
showExplanation and quizComplete are both false, without
`previousQuestion`, `score ≤ index + (1 if showExplanation or quizComplete
else 0)`; so `score ≤ index + (1 if showExplanation else 0)` as long as the
quiz is not complete. -/
theorem forwardRun_score_bound (s : State) (actions : List Action)
    (hs : Fresh s) (hf : forwardRun s actions = true) :
    (run s actions).score ≤ (run s actions).index +
        (if (run s actions).showExplanation || (run s actions).quizComplete then 1 else 0) ∧
    ((run s actions).quizComplete = false →
      (run s actions).score ≤ (run s actions).index +
        (if (run s actions).showExplanation then 1 else 0)) := by
  have h := forwardRun_bound actions s hf (by rw [hs.2.1]; exact Nat.zero_le _)
  refine ⟨h, fun hc => ?_⟩
  simpa [hc] using h

theorem forwardRun_score_bound_witness :
    Fresh (sessionOver [q1, q2]) ∧
    forwardRun (sessionOver [q1, q2])
      [.handleAnswer "A", .nextQuestion, .handleAnswer "B"] = true ∧
    (run (sessionOver [q1, q2])
      [.handleAnswer "A", .nextQuestion, .handleAnswer "B"]).score ≤ 1 + 1 := by
  have h := forwardRun_score_bound (sessionOver [q1, q2])
    [.handleAnswer "A", .nextQuestion, .handleAnswer "B"] (by decide) (by decide)
  exact ⟨by decide, by decide, h.1⟩

/-! ## The progress fraction along a play-through -/

/-- Claim C7, counterexample: on a one-question pool the progress value is 1
once the answer is given and 0 in the complete state that the following
`nextQuestion` produces: it decreases on the last step and does not end
at 1. -/
theorem progress_drops_at_completion :
    playTrace (sessionOver [q1]) ["A"] =
      [sessionOver [q1], handleAnswer (sessionOver [q1]) "A",
        nextQuestion (handleAnswer (sessionOver [q1]) "A")] ∧
    (nextQuestion (handleAnswer (sessionOver [q1]) "A")).quizComplete = true ∧
    progress (handleAnswer (sessionOver [q1]) "A") = 1 ∧
    progress (nextQuestion (handleAnswer (sessionOver [q1]) "A")) = 0 ∧
    ¬ progress (handleAnswer (sessionOver [q1]) "A") ≤
        progress (nextQuestion (handleAnswer (sessionOver [q1]) "A")) := by
  decide!

theorem progress_le_of (a b : State) (hp : a.shuffledQuestions = b.shuffledQuestions)
    (h : a.index + (if a.showExplanation then 1 else 0) ≤
      b.index + (if b.showExplanation then 1 else 0)) :
    progress a ≤ progress b := by
  unfold progress
  rw [hp]
  apply div_le_div_of_nonneg_right _ (Nat.cast_nonneg _)
  exact_mod_cast h

theorem playTrace_ne_nil (s : State) (options : List String) : playTrace s options ≠ [] := by
  cases options <;> simp [playTrace]

theorem playTrace_head (s : State) (options : List String) :
    ∃ rest, playTrace s options = s :: rest := by
  cases options <;> simp [playTrace]

theorem playTrace_from (options : List String) :
    ∀ s : State, s.showExplanation = false →
      s.index + options.length = s.shuffledQuestions.length → options ≠ [] →
      List.Chain' (fun a b => progress a ≤ progress b) (playTrace s options).dropLast ∧
      (playTrace s options).dropLast.getLast?.map progress = some 1 ∧
      (playTrace s options).getLast? = some (play s options) ∧
      progress (play s options) =
        ((s.shuffledQuestions.length - 1 : Nat) : ℚ) / (s.shuffledQuestions.length : ℚ) := by
  induction options with
  | nil => intro s _ _ h; exact absurd rfl h
  | cons o os ih =>
    intro s hshow hlen _
    have hlt : s.index < s.shuffledQuestions.length := by
      simp only [List.length_cons] at hlen; omega
    have hAi := handleAnswer_index s o
    have hAp := handleAnswer_pool s o
    have hAs : (handleAnswer s o).showExplanation = true := by
      rw [handleAnswer_showExplanation, currentQuestion_of_lt s hlt]
    have hstep1 : progress s ≤ progress (handleAnswer s o) :=
      progress_le_of _ _ hAp.symm (by rw [hAi, hAs, hshow]; simp)
    cases os with
    | nil =>
      have hlast : ¬ s.index + 1 < s.shuffledQuestions.length := by
        simp only [List.length_cons, List.length_nil] at hlen; omega
      have hn : s.shuffledQuestions.length = s.index + 1 := by
        simp only [List.length_cons, List.length_nil] at hlen; omega
      obtain ⟨hi, _⟩ := answerThenNext_last s o hlast
      refine ⟨?_, ?_, ?_, ?_⟩
      · simpa [playTrace] using hstep1
      · simp only [playTrace, List.dropLast, List.getLast?_cons_cons, List.getLast?_singleton,
          Option.map_some']
        congr 1
        unfold progress
        rw [hAi, hAs, hAp, hn]
        simp only [if_true]
        exact div_self (by positivity)
      · simp [playTrace, play, answerThenNext]
      · simp only [play, List.foldl_cons, List.foldl_nil]
        unfold progress
        rw [hi, answerThenNext_pool, hn]
        simp [answerThenNext, nextQuestion_showExplanation]
    | cons o2 os2 =>
      have hmore : s.index + 1 < s.shuffledQuestions.length := by
        simp only [List.length_cons] at hlen; omega
      obtain ⟨hi, _⟩ := answerThenNext_more s o hmore
      have hpool := answerThenNext_pool s o
      have hNs : (answerThenNext s o).showExplanation = false :=
        nextQuestion_showExplanation _
      obtain ⟨c, l, m, e⟩ := ih (answerThenNext s o) hNs
        (by rw [hi, hpool]; simp only [List.length_cons] at hlen ⊢; omega) (by simp)
      have hstep2 : progress (handleAnswer s o) ≤ progress (answerThenNext s o) :=
        progress_le_of _ _ (by rw [hpool, hAp]) (by rw [hAi, hAs, hi, hNs]; simp)
      have hT : playTrace s (o :: o2 :: os2) =
          s :: handleAnswer s o :: playTrace (answerThenNext s o) (o2 :: os2) := rfl
      have hne := playTrace_ne_nil (answerThenNext s o) (o2 :: os2)
      have hD : (playTrace (answerThenNext s o) (o2 :: os2)).dropLast =
          answerThenNext s o :: handleAnswer (answerThenNext s o) o2 ::
            (playTrace (answerThenNext (answerThenNext s o) o2) os2).dropLast := by
        have : playTrace (answerThenNext s o) (o2 :: os2) =
            answerThenNext s o :: handleAnswer (answerThenNext s o) o2 ::
              playTrace (answerThenNext (answerThenNext s o) o2) os2 := rfl
        rw [this, List.dropLast_cons_of_ne_nil (by simp),
          List.dropLast_cons_of_ne_nil (playTrace_ne_nil _ _)]
      have hDL : (playTrace s (o :: o2 :: os2)).dropLast =
          s :: handleAnswer s o :: (playTrace (answerThenNext s o) (o2 :: os2)).dropLast := by
        rw [hT, List.dropLast_cons_of_ne_nil (by simp), List.dropLast_cons_of_ne_nil hne]
      refine ⟨?_, ?_, ?_, ?_⟩
      · rw [hDL, List.chain'_cons]
        refine ⟨hstep1, ?_⟩
        rw [hD] at c ⊢
        rw [List.chain'_cons]
        exact ⟨hstep2, c⟩
      · rw [hDL]
        rw [hD] at l ⊢
        simpa [List.getLast?_cons_cons] using l
      · rw [hT, play_cons, ← m]
        obtain ⟨x, rest, hx⟩ := List.exists_cons_of_ne_nil hne
        rw [hx]
        simp [List.getLast?_cons_cons]
      · rw [play_cons, e, hpool]

/-- Claim C7, amended: along the run `handleAnswer, nextQuestion, ...` from a
freshly started level over a non-empty pool of `n` questions, with `n`
options, the progress value never decreases from one state to the next up
to the state after the last `handleAnswer`, where it is exactly 1; the
`nextQuestion` that follows sets quizComplete, and in that complete state
the value of the formula is `(n - 1) / n`. -/
theorem progress_along_play (s : State) (options : List String)
    (hs : Fresh s) (hne : s.shuffledQuestions ≠ [])
    (hlen : options.length = s.shuffledQuestions.length) :
    List.Chain' (fun a b => progress a ≤ progress b) (playTrace s options).dropLast ∧
    (playTrace s options).dropLast.getLast?.map progress = some 1 ∧
    (playTrace s options).getLast? = some (play s options) ∧
    (play s options).quizComplete = true ∧
    progress (play s options) =
      ((s.shuffledQuestions.length - 1 : Nat) : ℚ) / (s.shuffledQuestions.length : ℚ) := by
  have hopt : options ≠ [] := by
    intro h; rw [h] at hlen; exact hne (List.eq_nil_of_length_eq_zero hlen.symm)
  obtain ⟨c, l, m, e⟩ := playTrace_from options s hs.2.2.1 (by rw [hs.1, hlen]; simp) hopt
  exact ⟨c, l, m, (play_fresh s options hs hne hlen).2.2, e⟩

theorem progress_along_play_witness :
    Fresh (sessionOver [q1, q2]) ∧
    (playTrace (sessionOver [q1, q2]) ["A", "C"]).dropLast.getLast?.map progress = some 1 ∧
    progress (play (sessionOver [q1, q2]) ["A", "C"]) = 1 / 2 := by
  have h := progress_along_play (sessionOver [q1, q2]) ["A", "C"]
    (by decide) (by decide) (by decide)
  refine ⟨by decide, h.2.1, h.2.2.2.2.trans ?_⟩
  norm_num [sessionOver, State.init]

/-! ## The final percentage -/

/-- Claim C5, the code at the failing input: on a two-question pool, the run
answer, next, answer, previous, answer, next, answer, next, every call of
which the render offers, ends complete with score 4 out of 2, and the result
screen shows 200 percent. -/
theorem percent_above_hundred :
    (startLevel tails [q1, q2] State.init 1).shuffledQuestions = [q1, q2] ∧
    offeredRun (startLevel tails [q1, q2] State.init 1) answeredTwice = true ∧
    (run (startLevel tails [q1, q2] State.init 1) answeredTwice).quizComplete = true ∧
    (run (startLevel tails [q1, q2] State.init 1) answeredTwice).score = 4 ∧
    percent (run (startLevel tails [q1, q2] State.init 1) answeredTwice) = some 200 ∧
    render (run (startLevel tails [q1, q2] State.init 1) answeredTwice) =
      .ok (.complete 4 2 (some 200)) := by
  decide!

/-! ## A level without questions -/

/-- Claim C8, the code at the failing input: with a dataset that has only
level-1 questions, `startLevel(2)` leaves an active session (selectedLevel
2) that is not complete over an empty pool, and its render reads a property
of the undefined `currentQuestion`. -/
theorem startLevel_empty_level (rnd : Nat → ℚ) (s : State) :
    (startLevel rnd [q1, q2, q3] s 2).selectedLevel = some 2 ∧
    (startLevel rnd [q1, q2, q3] s 2).shuffledQuestions = [] ∧
    (startLevel rnd [q1, q2, q3] s 2).quizComplete = false ∧
    render (startLevel rnd [q1, q2, q3] s 2) =
      .error "TypeError: undefined is not an object" := by
  have hpool : (startLevel rnd [q1, q2, q3] s 2).shuffledQuestions = [] := by
    simp [startLevel, q1, q2, q3, shuffleArray, insertionSort, insertionLoop]
  have hlevel : (startLevel rnd [q1, q2, q3] s 2).selectedLevel = some 2 := rfl
  have hdone : (startLevel rnd [q1, q2, q3] s 2).quizComplete = false := rfl
  have hindex : (startLevel rnd [q1, q2, q3] s 2).index = 0 := rfl
  refine ⟨hlevel, hpool, hdone, ?_⟩
  simp [render, noLevel, currentQuestion, hpool, hlevel, hdone, hindex]

/-! ## The distribution of shuffleArray -/

/-- Claim C9, the code at the failing input: on three distinct questions and
fair comparator outcomes, the 8 equally likely outcome sequences give the
six orderings 2, 1, 2, 1, 1 and 1 times (probabilities 1/4 and 1/8, not
1/6); and for no number `m` of fair outcomes is the probability of an
ordering `1 / 6`, as `6 * outcomes ≠ 2 ^ m`. -/
theorem shuffleArray_not_uniform :
    outcomes 3 [q1, q2, q3] [q1, q2, q3] = 2 ∧
    outcomes 3 [q1, q2, q3] [q1, q3, q2] = 1 ∧
    outcomes 3 [q1, q2, q3] [q2, q1, q3] = 2 ∧
    outcomes 3 [q1, q2, q3] [q2, q3, q1] = 1 ∧
    outcomes 3 [q1, q2, q3] [q3, q1, q2] = 1 ∧
    outcomes 3 [q1, q2, q3] [q3, q2, q1] = 1 ∧
    ∀ (m : Nat) (target : List Question), 6 * outcomes m [q1, q2, q3] target ≠ 2 ^ m := by
  refine ⟨by decide!, by decide!, by decide!, by decide!, by decide!, by decide!, ?_⟩
  intro m target h
  have h3 : 3 ∣ 2 ^ m := ⟨2 * outcomes m [q1, q2, q3] target, by rw [← h]; ring⟩
  have := Nat.Prime.dvd_of_dvd_pow Nat.prime_three h3
  omega

end PhishShield
